import Mathlib

/-!
Shallow embedding of the Timetable-Pattern-Generator core
(`src/timetable_analyzer.py`): the `Course` data model, the fixed time
grid, the constraint filter, and the combinatorial schedule generator,
together with theorems settling the specification claims.

Python strings are modelled as `String`; Python `Optional[str]` fields as
`Option String` (`none` = Python `None`).  Python truthiness of an
optional string (`if self.day1`) is "present and non-empty".  Python's
substring test (`x in s`), `str.startswith` and `str.lower` are modelled
on the underlying character lists.
-/

namespace Timetable

/-- Python `p.startswith(q)` on character lists. -/
def isPrefixL : List Char → List Char → Bool
  | [], _ => true
  | _ :: _, [] => false
  | a :: as, b :: bs => a == b && isPrefixL as bs

/-- Python `needle in hay` (contiguous substring test) on character lists. -/
def containsL (needle : List Char) : List Char → Bool
  | [] => needle.isEmpty
  | hay@(_ :: t) => isPrefixL needle hay || containsL needle t

/-- Python `s.startswith(pat)`. -/
def strStarts (s pat : String) : Bool := isPrefixL pat.data s.data

/-- Python `pat in s` (substring containment). -/
def containsStr (s pat : String) : Bool := containsL pat.data s.data

/-- Python `s.lower()` (ASCII case folding suffices for this catalog). -/
def lowerStr (s : String) : String := ⟨s.data.map Char.toLower⟩

/-- Python truthiness of an `Optional[str]`: present and non-empty. -/
def truthyS : Option String → Bool
  | none => false
  | some s => !(s == "")

/-- Python `venue or "TBD"`. -/
def orTBD : Option String → String
  | none => "TBD"
  | some v => if v == "" then "TBD" else v

/-- A single course offering (`Course` dataclass in the source).  The
Python field `section` is called `section_` here because `section` is a
Lean keyword. -/
structure Course where
  code : String
  title : String
  short_title : String
  section_ : String
  instructor : String
  instructor_short : String
  credit_hours : Nat
  category : String
  day1 : Option String := none
  slot1 : Option String := none
  venue1 : Option String := none
  day2 : Option String := none
  slot2 : Option String := none
  venue2 : Option String := none
  duration_minutes : Nat := 80
  deriving DecidableEq, Repr

/-- `Course.TIME_SLOT_ORDER`: the fixed ordered grid of slot start times. -/
def TIME_SLOT_ORDER : List String :=
  ["08:30", "10:00", "11:30", "13:00", "14:30", "16:00", "17:30", "19:00"]

/-- `Course.is_lab`: duration above 100 minutes or a "Lab" marker in the title. -/
def Course.is_lab (c : Course) : Bool :=
  decide (100 < c.duration_minutes) || containsStr c.title "Lab"

/-- `Course._get_next_slot`: index lookup in the grid; `none` when the slot
is off-grid (`ValueError` branch) or is the last grid entry. -/
def get_next_slot (slot : String) : Option String :=
  match TIME_SLOT_ORDER.findIdx? (· == slot) with
  | some idx =>
      if idx + 1 < TIME_SLOT_ORDER.length then TIME_SLOT_ORDER.get? (idx + 1)
      else none
  | none => none

/-- `Course.get_time_slots`: the `(day, slot, venue)` triples occupied by the
offering, including the consecutive extension slot for labs. -/
def Course.get_time_slots (c : Course) : List (String × String × String) :=
  let slots : List (String × String × String) := []
  let slots :=
    if truthyS c.day1 && truthyS c.slot1 then
      let slots := slots ++ [(c.day1.getD "", c.slot1.getD "", orTBD c.venue1)]
      if c.is_lab then
        match get_next_slot (c.slot1.getD "") with
        | some ns => slots ++ [(c.day1.getD "", ns, orTBD c.venue1)]
        | none => slots
      else slots
    else slots
  let slots :=
    if truthyS c.day2 && truthyS c.slot2 then
      let slots := slots ++ [(c.day2.getD "", c.slot2.getD "", orTBD c.venue2)]
      if c.is_lab then
        match get_next_slot (c.slot2.getD "") with
        | some ns => slots ++ [(c.day2.getD "", ns, orTBD c.venue2)]
        | none => slots
      else slots
    else slots
  slots

/-- `Course.conflicts_with`: some occupied `(day, slotStart)` pair is shared. -/
def Course.conflicts_with (c other : Course) : Bool :=
  c.get_time_slots.any (fun s1 =>
    other.get_time_slots.any (fun s2 => s1.1 == s2.1 && s1.2.1 == s2.2.1))

/-- A section preference value: the Python code accepts either a string
(single section, or `"any"`) or a list of section labels. -/
inductive SectionPref where
  | str (s : String)
  | list (ss : List String)
  deriving DecidableEq, Repr

/-- Python truthiness of a preference value (empty string / empty list are
falsy and are treated like `"any"`). -/
def SectionPref.truthy : SectionPref → Bool
  | .str s => !(s == "")
  | .list ss => !ss.isEmpty

/-- `TimetableConstraints` dataclass.  Python dicts are modelled as
association lists in insertion order (their iteration order). -/
structure TimetableConstraints where
  excluded_instructors : List String := []
  excluded_time_slots : List String := []
  required_courses : List String := []
  wildcard_counts : List (String × Nat) := []
  section_preferences : List (String × SectionPref) := []
  batch : String := "BCS-2022"
  deriving DecidableEq, Repr

/-- `TimetableConstraints.get_semester_prefix` (renamed: a name may not end
in that final word here): batch → semester marker, defaulting to "BCS-8". -/
def semesterPrefixOf (cons : TimetableConstraints) : String :=
  match ([("BCS-2025", "BCS-2"), ("BCS-2024", "BCS-4"), ("BCS-2023", "BCS-6"),
          ("BCS-2022", "BCS-8"), ("BCS-2021", "BCS-10")].find?
            (fun p => p.1 == cons.batch)) with
  | some p => p.2
  | none => "BCS-8"

/-- `constraints.section_preferences.get(name, 'any')`. -/
def prefOf (cons : TimetableConstraints) (name : String) : SectionPref :=
  match cons.section_preferences.find? (fun p => p.1 == name) with
  | some p => p.2
  | none => .str "any"

/-- The per-offering predicate of `TimetableAnalyzer.filter_courses`: the
offering survives iff it is a BCS offering, is required or matches the
batch's semester marker, and trips neither the instructor exclusion nor
the time-slot exclusion. -/
def keepCourse (cons : TimetableConstraints) (c : Course) : Bool :=
  strStarts c.section_ "BCS-" &&
  (cons.required_courses.contains c.short_title ||
    strStarts c.section_ (semesterPrefixOf cons)) &&
  !(cons.excluded_instructors.any (fun exc =>
      containsStr (lowerStr c.instructor) (lowerStr exc) ||
      containsStr (lowerStr c.instructor_short) (lowerStr exc))) &&
  !(c.get_time_slots.any (fun s =>
      cons.excluded_time_slots.any (fun exc =>
        !(s.2.1 == "") && strStarts s.2.1 exc)))

/-- `TimetableAnalyzer.filter_courses` (order-preserving filter of the
catalog; the unused `include_all_for_required` parameter is omitted). -/
def filter_courses (courses : List Course) (cons : TimetableConstraints) : List Course :=
  courses.filter (keepCourse cons)

/-- `TimetableAnalyzer._has_conflicts`: any ordered pair `i < j` conflicts. -/
def has_conflicts : List Course → Bool
  | [] => false
  | c :: rest => rest.any (fun c2 => c.conflicts_with c2) || has_conflicts rest

/-- Lexicographic (code-point) string comparison, Python `<=` on strings. -/
def charListLe : List Char → List Char → Bool
  | [], _ => true
  | _ :: _, [] => false
  | a :: as, b :: bs =>
      if a.val < b.val then true
      else if b.val < a.val then false
      else charListLe as bs

def strLe (a b : String) : Bool := charListLe a.data b.data

/-- Insert into a sorted list of strings. -/
def insertSorted (x : String) : List String → List String
  | [] => [x]
  | y :: ys => if strLe x y then x :: y :: ys else y :: insertSorted x ys

/-- Python `sorted` on a list of strings. -/
def sortStrings : List String → List String
  | [] => []
  | x :: xs => insertSorted x (sortStrings xs)

/-- `TimetableAnalyzer._get_slot_pattern`: the sorted list of
`"day_slotStart"` strings over all occupied slots of the selection. -/
def get_slot_pattern (courses : List Course) : List String :=
  sortStrings (courses.flatMap (fun c =>
    c.get_time_slots.map (fun s => s.1 ++ "_" ++ s.2.1)))

/-- `UNIVERSITY_ELECTIVE_CATEGORIES` class constant. -/
def UNIVERSITY_ELECTIVE_CATEGORIES : List String :=
  ["MG (Elective)", "HSS (Elective)", "Mandatory Elec"]

def ROBO_ELECTIVE_CATEGORY : String := "Robo (Elective)"

def CS_ELECTIVE_CATEGORY : String := "CS (Elective)"

/-- `TimetableAnalyzer._matches_wildcard`. -/
def matches_wildcard (course_category wildcard : String) : Bool :=
  if wildcard == "University Elective" then
    UNIVERSITY_ELECTIVE_CATEGORIES.contains course_category
  else if wildcard == "CS Elective" then
    course_category == CS_ELECTIVE_CATEGORY
  else if wildcard == "Robo Elective" then
    course_category == ROBO_ELECTIVE_CATEGORY
  else
    course_category == wildcard

/-- The sections of a group that match a specific preference (the
`filtered_sections` local of `generate_timetables`): list preferences
match by membership, string preferences by equality. -/
def matchingSections (pref : SectionPref) (course_sections : List Course) :
    List Course :=
  match pref with
  | .list ss => course_sections.filter (fun c => ss.contains c.section_)
  | .str s => course_sections.filter (fun c => c.section_ == s)

/-- Resolution of a required course's option set from its group of
sections, per the section-preference branch of `generate_timetables`
(lines 328–347): a truthy non-"any" preference selects the matching
subset, falling back to the whole group when the subset is empty. -/
def resolvePref (pref : SectionPref) (course_sections : List Course) : List Course :=
  if pref.truthy && !(pref == .str "any") then
    let filtered_sections := matchingSections pref course_sections
    if filtered_sections.isEmpty then course_sections else filtered_sections
  else course_sections

/-- The `required_options` list built by `generate_timetables`: one options
list per required course name that occurs in the filtered catalog (names
with no group are skipped with a warning). -/
def requiredOptions (cons : TimetableConstraints) (filtered : List Course) :
    List (List Course) :=
  cons.required_courses.filterMap (fun name =>
    if (filtered.map (·.short_title)).contains name then
      some (resolvePref (prefOf cons name)
        (filtered.filter (fun c => c.short_title == name)))
    else none)

/-- The first wildcard category (in `wildcard_counts` key order) matching a
course's category, if any — the `break` in the pool-assignment loop. -/
def firstMatchingCat (cons : TimetableConstraints) (c : Course) : Option String :=
  (cons.wildcard_counts.map Prod.fst).find? (fun w => matches_wildcard c.category w)

/-- The wildcard pool of one category: non-required filtered offerings whose
first matching wildcard category is this one. -/
def wildcardPool (cons : TimetableConstraints) (filtered : List Course)
    (cat : String) : List Course :=
  filtered.filter (fun c =>
    !(cons.required_courses.contains c.short_title) &&
    (firstMatchingCat cons c == some cat))

/-- Distinct strings in first-occurrence order (Python dict key insertion
order for `get_unique_courses`): a key is appended the first time it is
seen and skipped afterwards. -/
def dedupFirstAux (seen : List String) : List String → List String
  | [] => []
  | x :: xs =>
      if seen.contains x then dedupFirstAux seen xs
      else x :: dedupFirstAux (x :: seen) xs

def dedupFirst (l : List String) : List String := dedupFirstAux [] l

/-- `wildcard_by_category[cat]`: the distinct course names of the pool, in
first-occurrence order. -/
def wildcardNamesOf (cons : TimetableConstraints) (filtered : List Course)
    (cat : String) : List String :=
  dedupFirst ((wildcardPool cons filtered cat).map (·.short_title))

/-- `wildcard_sections_by_name.get(name, [])`: the name→sections map is
written category by category in key order, later categories overwriting
earlier ones, so a lookup sees the last category whose pool has the name. -/
def wildcardSectionsOf (cons : TimetableConstraints) (filtered : List Course)
    (name : String) : List Course :=
  match (cons.wildcard_counts.map Prod.fst).reverse.find?
          (fun cat => (wildcardNamesOf cons filtered cat).contains name) with
  | some cat =>
      (wildcardPool cons filtered cat).filter (fun c => c.short_title == name)
  | none => []

/-- `itertools.combinations`: all size-`k` subsequences, in the order
Python emits them. -/
def combs : Nat → List String → List (List String)
  | 0, _ => [[]]
  | _ + 1, [] => []
  | k + 1, x :: xs => (combs k xs).map (fun c => x :: c) ++ combs (k + 1) xs

/-- `TimetableAnalyzer._generate_wildcard_combos`, as a recursion over the
`wildcard_counts` entries (the Python accumulates with a left fold over
the dict items; the enumeration order and elements are identical). -/
def generate_wildcard_combos (cons : TimetableConstraints) (filtered : List Course) :
    List (String × Nat) → List (List String)
  | [] => [[]]
  | (cat, count) :: rest =>
    if !((cons.wildcard_counts.map Prod.fst).contains cat) || count == 0 then
      generate_wildcard_combos cons filtered rest
    else
      let available := wildcardNamesOf cons filtered cat
      (combs (min count available.length) available).flatMap
        (fun cc => (generate_wildcard_combos cons filtered rest).map
          (fun existing => cc ++ existing))

/-- `itertools.product(*lists)`: Cartesian product, leftmost index varying
slowest. -/
def listProduct {α : Type} : List (List α) → List (List α)
  | [] => [[]]
  | l :: ls => l.flatMap (fun x => (listProduct ls).map (fun tl => x :: tl))

/-- The stream of candidate selections examined by the nested loops of
`generate_timetables`, in enumeration order, with the conflict rejections
applied (conflicting combinations never touch the dedup set or the result
list, so filtering them out here is behaviour-preserving). -/
def candidateCombos (cons : TimetableConstraints) (filtered : List Course)
    (required_options : List (List Course))
    (wildcard_name_combos : List (List String)) : List (List Course) :=
  (listProduct required_options).flatMap (fun req_list =>
    if has_conflicts req_list then []
    else
      wildcard_name_combos.flatMap (fun wildcard_names =>
        let wildcard_section_options := wildcard_names.filterMap (fun n =>
          let sections := wildcardSectionsOf cons filtered n
          if sections.isEmpty then none else some sections)
        if wildcard_section_options.isEmpty then [req_list]
        else
          (listProduct wildcard_section_options).filterMap (fun wc =>
            let full_combo := req_list ++ wc
            if has_conflicts full_combo then none else some full_combo)))

/-- The emission loop of `generate_timetables`: walk the candidate stream,
skip slot patterns already seen, append otherwise, and return as soon as
the result length has reached `max_results` — the cap test runs only
*after* an emission, exactly as in the Python. -/
def emitLoop (max_results : Nat) :
    List (List Course) → List (List String) → List (List Course) → List (List Course)
  | [], _, acc => acc
  | cand :: rest, seen, acc =>
    let pat := get_slot_pattern cand
    if seen.contains pat then emitLoop max_results rest seen acc
    else
      let acc2 := acc ++ [cand]
      if max_results ≤ acc2.length then acc2
      else emitLoop max_results rest (pat :: seen) acc2

/-- `TimetableAnalyzer.generate_timetables`. -/
def generate_timetables (courses : List Course) (cons : TimetableConstraints)
    (max_results : Nat) : List (List Course) :=
  let filtered := filter_courses courses cons
  let required_options := requiredOptions cons filtered
  if required_options.isEmpty then []
  else
    let wildcard_name_combos :=
      generate_wildcard_combos cons filtered cons.wildcard_counts
    emitLoop max_results
      (candidateCombos cons filtered required_options wildcard_name_combos) [] []

/-! ## Spec-side description of occupied slots (for the refinement claim C7) -/

/-- Spec-side description of one meeting's occupied slots (§4.1 of the
spec): the `(day, slotStart, venue)` triple for a present, non-empty
meeting pair, and — for labs — additionally the `(day, nextSlot, venue)`
triple when the grid has a next slot, nothing extra otherwise. -/
def meetingSlotsSpec (lab : Bool) (d s v : Option String) :
    List (String × String × String) :=
  match d, s with
  | some d', some s' =>
      if d' = "" ∨ s' = "" then []
      else
        (d', s', orTBD v) ::
          (if lab then
            match get_next_slot s' with
            | some ns => [(d', ns, orTBD v)]
            | none => []
          else [])
  | _, _ => []

/-- Spec-side `occupiedSlots`: both meetings' emissions, in order. -/
def occupiedSlotsSpec (c : Course) : List (String × String × String) :=
  meetingSlotsSpec c.is_lab c.day1 c.slot1 c.venue1 ++
  meetingSlotsSpec c.is_lab c.day2 c.slot2 c.venue2

/-! ## Helper lemmas -/

theorem meeting_block_eq (lab : Bool) (d s v : Option String)
    (init : List (String × String × String)) :
    (if truthyS d && truthyS s then
      if lab then
        match get_next_slot (s.getD "") with
        | some ns =>
            (init ++ [(d.getD "", s.getD "", orTBD v)]) ++ [(d.getD "", ns, orTBD v)]
        | none => init ++ [(d.getD "", s.getD "", orTBD v)]
      else init ++ [(d.getD "", s.getD "", orTBD v)]
    else init) = init ++ meetingSlotsSpec lab d s v := by
  cases d with
  | none => simp [truthyS, meetingSlotsSpec]
  | some d' =>
    cases s with
    | none => simp [truthyS, meetingSlotsSpec]
    | some s' =>
      by_cases hd : d' = "" <;> by_cases hs : s' = "" <;>
        simp only [truthyS, meetingSlotsSpec, hd, hs, Option.getD_some,
          beq_iff_eq, beq_self_eq_true, Bool.not_true, Bool.not_false,
          Bool.false_and, Bool.and_false, Bool.and_self, Bool.true_and,
          if_true, if_false, List.append_nil, or_self, or_true, true_or,
          ite_true, ite_false, Bool.false_eq_true, or_false, false_or] <;>
        try simp [hd, hs]
      cases lab with
      | false => simp
      | true =>
        cases hn : get_next_slot s' <;> simp [hn]

theorem get_time_slots_eq_spec (c : Course) :
    c.get_time_slots = occupiedSlotsSpec c := by
  simp only [Course.get_time_slots]
  rw [meeting_block_eq, meeting_block_eq]
  simp [occupiedSlotsSpec]

theorem meetingSlotsSpec_empty (lab : Bool) (d s v : Option String)
    (h : (truthyS d && truthyS s) = false) : meetingSlotsSpec lab d s v = [] := by
  cases d with
  | none => simp [meetingSlotsSpec]
  | some d' =>
    cases s with
    | none => simp [meetingSlotsSpec]
    | some s' =>
      simp only [truthyS, Bool.and_eq_false_iff, Bool.not_eq_false',
        beq_iff_eq] at h
      simp [meetingSlotsSpec, h]

/-- The per-course contribution to a slot pattern. -/
def slotStrings (c : Course) : List String :=
  c.get_time_slots.map (fun s => s.1 ++ "_" ++ s.2.1)

theorem get_slot_pattern_eq (l : List Course) :
    get_slot_pattern l = sortStrings (l.flatMap slotStrings) := rfl

theorem flatMap_filter_slotful (l : List Course) :
    (l.filter (fun x => !x.get_time_slots.isEmpty)).flatMap slotStrings =
      l.flatMap slotStrings := by
  induction l with
  | nil => rfl
  | cons c rest ih =>
    by_cases h : c.get_time_slots.isEmpty
    · have hs : slotStrings c = [] := by
        simp [slotStrings, List.isEmpty_iff.mp h]
      simp [List.filter_cons, h, hs, ih]
    · simp [List.filter_cons, h, ih]

/-! ## Claim theorems: time-grid model -/

/-- C7: for every offering, `is_lab` is true iff `duration_minutes > 100`
or the title contains the substring "Lab"; `get_time_slots` emits, for
each present non-empty meeting pair, its `(day, slotStart, venue)` triple
plus — exactly when the offering is a lab and the slot has a following
entry in the fixed 8-entry grid — the `(day, nextSlot, venue)` triple
(`occupiedSlotsSpec` states this shape verbatim); and the last grid entry
has no next slot, so a lab meeting there is silently truncated. -/
theorem C7_is_lab_and_slot_emission (c : Course) :
    (c.is_lab = true ↔ (100 < c.duration_minutes ∨ containsStr c.title "Lab" = true)) ∧
    c.get_time_slots = occupiedSlotsSpec c ∧
    get_next_slot "19:00" = none := by
  refine ⟨?_, get_time_slots_eq_spec c, by decide⟩
  simp [Course.is_lab]

/-- C9: `_get_next_slot` is total over arbitrary slot strings — every
string that is not one of the eight grid start-times yields `none` rather
than an error, and a lab whose stored (non-empty) slot is off-grid emits
only the base triple for that meeting. -/
theorem C9_next_slot_total_off_grid (s : String) (hs : s ∉ TIME_SLOT_ORDER)
    (hne : s ≠ "") :
    get_next_slot s = none ∧
    ∀ (c : Course) (d : String), c.is_lab = true → c.day1 = some d → d ≠ "" →
      c.slot1 = some s → (truthyS c.day2 && truthyS c.slot2) = false →
      c.get_time_slots = [(d, s, orTBD c.venue1)] := by
  have hnone : get_next_slot s = none := by
    unfold get_next_slot
    have : TIME_SLOT_ORDER.findIdx? (· == s) = none := by
      rw [List.findIdx?_eq_none_iff]
      intro x hx
      simp only [beq_eq_false_iff_ne, ne_eq]
      intro he; exact hs (he ▸ hx)
    rw [this]
  refine ⟨hnone, fun c d hlab hd hdne hslot h2 => ?_⟩
  rw [get_time_slots_eq_spec]
  unfold occupiedSlotsSpec
  rw [meetingSlotsSpec_empty _ _ _ _ h2, hd, hslot]
  simp [meetingSlotsSpec, hdne, hne, hlab, hnone]

/-- C10: an offering with no (truthy) meeting data occupies no slots:
`get_time_slots` is empty, `conflicts_with` is false against any offering
in both argument orders, inserting the offering anywhere in a selection
leaves the slot signature unchanged, and — in general — two selections
with the same slot-occupying offerings (in order) have equal signatures. -/
theorem C10_empty_meeting_offerings (c : Course)
    (h1 : (truthyS c.day1 && truthyS c.slot1) = false)
    (h2 : (truthyS c.day2 && truthyS c.slot2) = false) :
    c.get_time_slots = [] ∧
    (∀ o : Course, c.conflicts_with o = false ∧ o.conflicts_with c = false) ∧
    (∀ l1 l2 : List Course,
      get_slot_pattern (l1 ++ c :: l2) = get_slot_pattern (l1 ++ l2)) ∧
    (∀ sel1 sel2 : List Course,
      sel1.filter (fun x => !x.get_time_slots.isEmpty) =
        sel2.filter (fun x => !x.get_time_slots.isEmpty) →
      get_slot_pattern sel1 = get_slot_pattern sel2) := by
  have hempty : c.get_time_slots = [] := by
    rw [get_time_slots_eq_spec]
    unfold occupiedSlotsSpec
    rw [meetingSlotsSpec_empty _ _ _ _ h1, meetingSlotsSpec_empty _ _ _ _ h2]
    rfl
  refine ⟨hempty, fun o => ⟨?_, ?_⟩, fun l1 l2 => ?_, fun sel1 sel2 hf => ?_⟩
  · simp [Course.conflicts_with, hempty]
  · simp [Course.conflicts_with, hempty]
  · have hs : slotStrings c = [] := by simp [slotStrings, hempty]
    simp [get_slot_pattern_eq, hs]
  · rw [get_slot_pattern_eq, get_slot_pattern_eq,
      ← flatMap_filter_slotful sel1, ← flatMap_filter_slotful sel2, hf]

/-! ## Claim theorems: constraint filter -/

theorem any_erase_false {p : String → Bool} {l : List String} (e : String)
    (h : l.any p = false) : (l.erase e).any p = false := by
  rw [List.any_eq_false] at h ⊢
  intro x hx
  exact h x ((List.erase_sublist e l).mem hx)

/-- C5: the batch semester-scope never drops a required offering — an
offering whose `short_title` is required and whose section carries the
program marker "BCS-" passes `filter_courses` whenever the instructor and
time-slot exclusions do not fire — while a non-required offering whose
section does not start with the resolved batch marker is always dropped. -/
theorem C5_required_exemption (courses : List Course)
    (cons : TimetableConstraints) (c : Course) :
    (c ∈ courses → c.short_title ∈ cons.required_courses →
      strStarts c.section_ "BCS-" = true →
      (cons.excluded_instructors.any (fun exc =>
        containsStr (lowerStr c.instructor) (lowerStr exc) ||
        containsStr (lowerStr c.instructor_short) (lowerStr exc))) = false →
      (c.get_time_slots.any (fun s => cons.excluded_time_slots.any (fun exc =>
        !(s.2.1 == "") && strStarts s.2.1 exc))) = false →
      c ∈ filter_courses courses cons) ∧
    (c.short_title ∉ cons.required_courses →
      strStarts c.section_ (semesterPrefixOf cons) = false →
      c ∉ filter_courses courses cons) := by
  constructor
  · intro hmem hreq hbcs hinstr hslot
    rw [filter_courses, List.mem_filter]
    refine ⟨hmem, ?_⟩
    unfold keepCourse
    rw [hbcs, hinstr, hslot]
    have : cons.required_courses.contains c.short_title = true :=
      List.elem_iff.mpr hreq
    rw [this]
    rfl
  · intro hreq hpfx hmem
    rw [filter_courses, List.mem_filter] at hmem
    have hk := hmem.2
    unfold keepCourse at hk
    have : cons.required_courses.contains c.short_title = false := by
      rw [← Bool.not_eq_true]
      intro hcontra
      exact hreq (List.elem_iff.mp hcontra)
    rw [this, hpfx] at hk
    simp at hk

/-- C6: the filter is monotone in the exclusion lists — erasing an entry
from `excluded_instructors` or from `excluded_time_slots` (all other
constraint fields unchanged) keeps every offering that the stricter
constraints accepted, so relaxation never shrinks what generation can be
built from. -/
theorem C6_monotonic_relaxation (courses : List Course)
    (cons : TimetableConstraints) (e : String) (c : Course) :
    (c ∈ filter_courses courses cons →
      c ∈ filter_courses courses
        { cons with excluded_instructors := cons.excluded_instructors.erase e }) ∧
    (c ∈ filter_courses courses cons →
      c ∈ filter_courses courses
        { cons with excluded_time_slots := cons.excluded_time_slots.erase e }) := by
  constructor
  · intro hmem
    rw [filter_courses, List.mem_filter] at hmem ⊢
    refine ⟨hmem.1, ?_⟩
    have hk := hmem.2
    unfold keepCourse at hk ⊢
    simp only [Bool.and_eq_true] at hk
    obtain ⟨⟨⟨h1, h2⟩, h3⟩, h4⟩ := hk
    simp only [semesterPrefixOf] at h2 ⊢
    rw [Bool.not_eq_true'] at h3
    simp only [Bool.and_eq_true]
    refine ⟨⟨⟨h1, h2⟩, ?_⟩, h4⟩
    rw [Bool.not_eq_true']
    exact any_erase_false e h3
  · intro hmem
    rw [filter_courses, List.mem_filter] at hmem ⊢
    refine ⟨hmem.1, ?_⟩
    have hk := hmem.2
    unfold keepCourse at hk ⊢
    simp only [Bool.and_eq_true] at hk
    obtain ⟨⟨⟨h1, h2⟩, h3⟩, h4⟩ := hk
    simp only [semesterPrefixOf] at h2 ⊢
    rw [Bool.not_eq_true'] at h4
    simp only [Bool.and_eq_true]
    refine ⟨⟨⟨h1, h2⟩, h3⟩, ?_⟩
    rw [Bool.not_eq_true']
    rw [List.any_eq_false] at h4 ⊢
    intro x hx
    have hinner := h4 x hx
    rw [Bool.not_eq_true, List.any_eq_false] at hinner ⊢
    intro y hy
    exact hinner y ((List.erase_sublist e _).mem hy)

/-! ## Emission-loop lemmas -/

theorem emitLoop_length_le (maxR : Nat) (cands : List (List Course)) :
    ∀ seen acc, (emitLoop maxR cands seen acc).length ≤ max maxR (acc.length + 1) := by
  induction cands with
  | nil =>
    intro seen acc
    simp only [emitLoop]
    omega
  | cons cand rest ih =>
    intro seen acc
    simp only [emitLoop]
    split
    · exact ih seen acc
    · split
      · rename_i hcap
        simp only [List.length_append, List.length_cons, List.length_nil]
        omega
      · rename_i hcap
        have h := ih (get_slot_pattern cand :: seen) (acc ++ [cand])
        simp only [List.length_append, List.length_cons, List.length_nil] at h hcap ⊢
        omega

theorem emitLoop_mem (maxR : Nat) (cands : List (List Course)) :
    ∀ seen acc l, l ∈ emitLoop maxR cands seen acc → l ∈ acc ∨ l ∈ cands := by
  induction cands with
  | nil =>
    intro seen acc l h
    exact Or.inl h
  | cons cand rest ih =>
    intro seen acc l h
    simp only [emitLoop] at h
    split at h
    · rcases ih _ _ _ h with h' | h'
      · exact Or.inl h'
      · exact Or.inr (List.mem_cons_of_mem _ h')
    · split at h
      · rcases List.mem_append.mp h with h' | h'
        · exact Or.inl h'
        · simp only [List.mem_singleton] at h'
          exact Or.inr (h' ▸ List.mem_cons_self _ _)
      · rcases ih _ _ _ h with h' | h'
        · rcases List.mem_append.mp h' with h'' | h''
          · exact Or.inl h''
          · simp only [List.mem_singleton] at h''
            exact Or.inr (h'' ▸ List.mem_cons_self _ _)
        · exact Or.inr (List.mem_cons_of_mem _ h')

theorem candidateCombos_no_conflicts (cons : TimetableConstraints)
    (filtered : List Course) (ro : List (List Course))
    (wnc : List (List String)) :
    ∀ l ∈ candidateCombos cons filtered ro wnc, has_conflicts l = false := by
  intro l hl
  simp only [candidateCombos, List.mem_flatMap] at hl
  obtain ⟨req, _, hl⟩ := hl
  split at hl
  · simp at hl
  · rename_i hreq
    simp only [List.mem_flatMap] at hl
    obtain ⟨wn, _, hl⟩ := hl
    split at hl
    · simp only [List.mem_singleton] at hl
      rw [hl]
      exact Bool.not_eq_true _ ▸ hreq
    · simp only [List.mem_filterMap] at hl
      obtain ⟨wc, _, heq⟩ := hl
      split at heq
      · simp at heq
      · rename_i hfull
        simp only [Option.some.injEq] at heq
        rw [← heq]
        exact Bool.not_eq_true _ ▸ hfull

/-! ## Claim theorems: generator invariants (C1, C2) -/

/-- C1: every selection emitted by `generate_timetables` is conflict-free —
`has_conflicts` is false on it, i.e. no two offerings within it occupy a
common `(day, slotStart)` pair derived by `get_time_slots`. -/
theorem C1_no_conflicts (courses : List Course) (cons : TimetableConstraints)
    (k : Nat) (l : List Course) (hl : l ∈ generate_timetables courses cons k) :
    has_conflicts l = false := by
  simp only [generate_timetables] at hl
  split at hl
  · simp at hl
  · rcases emitLoop_mem _ _ _ _ _ hl with h | h
    · simp at h
    · exact candidateCombos_no_conflicts _ _ _ _ l h

/-- C2 (amended): the result list of `generate_timetables` with cap `k` has
length at most `max k 1` — at most `k` for every `k ≥ 1`, but a cap of `0`
can still yield one selection, because the code checks the cap only after
appending a selection. -/
theorem C2_amended_cap (courses : List Course) (cons : TimetableConstraints)
    (k : Nat) :
    (generate_timetables courses cons k).length ≤ max k 1 ∧
    (1 ≤ k → (generate_timetables courses cons k).length ≤ k) := by
  have hb : (generate_timetables courses cons k).length ≤ max k 1 := by
    simp only [generate_timetables]
    split
    · simp
    · exact emitLoop_length_le k _ [] []
  exact ⟨hb, fun hk => le_trans hb (by omega)⟩

theorem emitLoop_pairwise (maxR : Nat) (cands : List (List Course)) :
    ∀ seen acc,
      acc.Pairwise (fun l1 l2 => get_slot_pattern l1 ≠ get_slot_pattern l2) →
      (∀ a ∈ acc, get_slot_pattern a ∈ seen) →
      (emitLoop maxR cands seen acc).Pairwise
        (fun l1 l2 => get_slot_pattern l1 ≠ get_slot_pattern l2) := by
  induction cands with
  | nil =>
    intro seen acc hp _
    simpa [emitLoop] using hp
  | cons cand rest ih =>
    intro seen acc hp hs
    simp only [emitLoop]
    split
    · exact ih seen acc hp hs
    · rename_i hnotseen
      have hp2 : (acc ++ [cand]).Pairwise
          (fun l1 l2 => get_slot_pattern l1 ≠ get_slot_pattern l2) := by
        rw [List.pairwise_append]
        refine ⟨hp, List.pairwise_singleton _ _, ?_⟩
        intro a ha b hb
        simp only [List.mem_singleton] at hb
        subst hb
        intro heq
        exact hnotseen (List.elem_iff.mpr (heq ▸ hs a ha))
      split
      · exact hp2
      · refine ih _ _ hp2 ?_
        intro a ha
        rcases List.mem_append.mp ha with h | h
        · exact List.mem_cons_of_mem _ (hs a h)
        · simp only [List.mem_singleton] at h
          subst h
          exact List.mem_cons_self _ _

theorem emitLoop_first (maxR : Nat) (cands : List (List Course)) :
    ∀ seen acc l, l ∈ emitLoop maxR cands seen acc →
      l ∈ acc ∨ (get_slot_pattern l ∉ seen ∧
        cands.find? (fun cand => get_slot_pattern cand == get_slot_pattern l) = some l) := by
  induction cands with
  | nil =>
    intro seen acc l h
    exact Or.inl h
  | cons cand rest ih =>
    intro seen acc l h
    simp only [emitLoop] at h
    split at h
    · rename_i hseen
      rcases ih _ _ _ h with h' | ⟨hns, hfind⟩
      · exact Or.inl h'
      · refine Or.inr ⟨hns, ?_⟩
        have hne : (get_slot_pattern cand == get_slot_pattern l) = false := by
          rw [beq_eq_false_iff_ne]
          intro heq
          exact hns (heq ▸ List.elem_iff.mp hseen)
        rw [List.find?_cons_of_neg _ (by simp [hne]), hfind]
    · rename_i hnotseen
      have hfresh : get_slot_pattern cand ∉ seen := fun hin =>
        hnotseen (List.elem_iff.mpr hin)
      split at h
      · rcases List.mem_append.mp h with h' | h'
        · exact Or.inl h'
        · simp only [List.mem_singleton] at h'
          subst h'
          exact Or.inr ⟨hfresh, by rw [List.find?_cons_of_pos _ (by simp)]⟩
      · rcases ih _ _ _ h with h' | ⟨hns, hfind⟩
        · rcases List.mem_append.mp h' with h'' | h''
          · exact Or.inl h''
          · simp only [List.mem_singleton] at h''
            subst h''
            exact Or.inr ⟨hfresh, by rw [List.find?_cons_of_pos _ (by simp)]⟩
        · have hnsc : get_slot_pattern l ∉ seen := fun hin =>
            hns (List.mem_cons_of_mem _ hin)
          have hne : (get_slot_pattern cand == get_slot_pattern l) = false := by
            rw [beq_eq_false_iff_ne]
            intro heq
            exact hns (heq ▸ List.mem_cons_self _ _)
          refine Or.inr ⟨hnsc, ?_⟩
          rw [List.find?_cons_of_neg _ (by simp [hne]), hfind]

/-- C4: within one call, any two distinct emitted selections have distinct
slot signatures (`get_slot_pattern`), and each emitted selection is the
*first* candidate, in the generator's enumeration order, carrying its
signature. -/
theorem C4_dedup_and_first (courses : List Course) (cons : TimetableConstraints)
    (k : Nat) :
    (generate_timetables courses cons k).Pairwise
      (fun l1 l2 => get_slot_pattern l1 ≠ get_slot_pattern l2) ∧
    (∀ l ∈ generate_timetables courses cons k,
      (candidateCombos cons (filter_courses courses cons)
        (requiredOptions cons (filter_courses courses cons))
        (generate_wildcard_combos cons (filter_courses courses cons)
          cons.wildcard_counts)).find?
        (fun cand => get_slot_pattern cand == get_slot_pattern l) = some l) := by
  constructor
  · simp only [generate_timetables]
    split
    · simp
    · exact emitLoop_pairwise _ _ [] [] List.Pairwise.nil (by simp)
  · intro l hl
    simp only [generate_timetables] at hl
    split at hl
    · simp at hl
    · rcases emitLoop_first _ _ [] [] l hl with h | ⟨_, hfind⟩
      · simp at h
      · exact hfind

/-! ## Cardinality machinery (C3) -/

theorem listProduct_mem {α : Type} (ls : List (List α)) (l : List α)
    (h : l ∈ listProduct ls) :
    l.length = ls.length ∧ ∀ x ∈ l, ∃ opts ∈ ls, x ∈ opts := by
  induction ls generalizing l with
  | nil =>
    simp only [listProduct, List.mem_singleton] at h
    subst h
    simp
  | cons hd tl ih =>
    simp only [listProduct, List.mem_flatMap, List.mem_map] at h
    obtain ⟨x, hx, tl', htl', rfl⟩ := h
    obtain ⟨hlen, hmem⟩ := ih tl' htl'
    refine ⟨by simp [hlen], ?_⟩
    intro y hy
    rcases List.mem_cons.mp hy with rfl | hy'
    · exact ⟨hd, List.mem_cons_self _ _, hx⟩
    · obtain ⟨opts, ho, hyo⟩ := hmem y hy'
      exact ⟨opts, List.mem_cons_of_mem _ ho, hyo⟩

theorem combs_mem (l : List String) :
    ∀ (k : Nat) (c : List String), c ∈ combs k l →
      c.length = k ∧ ∀ x ∈ c, x ∈ l := by
  induction l with
  | nil =>
    intro k c h
    cases k with
    | zero =>
      simp only [combs, List.mem_singleton] at h
      subst h
      simp
    | succ k => simp [combs] at h
  | cons a t ih =>
    intro k c h
    cases k with
    | zero =>
      simp only [combs, List.mem_singleton] at h
      subst h
      simp
    | succ k =>
      simp only [combs, List.mem_append, List.mem_map] at h
      rcases h with ⟨c', hc', rfl⟩ | h
      · obtain ⟨hlen, hmem⟩ := ih k c' hc'
        refine ⟨by simp [hlen], ?_⟩
        intro y hy
        rcases List.mem_cons.mp hy with rfl | hy'
        · exact List.mem_cons_self _ _
        · exact List.mem_cons_of_mem _ (hmem y hy')
      · obtain ⟨hlen, hmem⟩ := ih (k + 1) c h
        exact ⟨hlen, fun y hy => List.mem_cons_of_mem _ (hmem y hy)⟩

/-- The number of wildcard offerings every emitted selection carries for a
suffix of the `wildcard_counts` entries: per category, the quota capped by
the number of distinct course names in its pool (skipped entries give 0). -/
def wildcardTotalAux (cons : TimetableConstraints) (filtered : List Course) :
    List (String × Nat) → Nat
  | [] => 0
  | (cat, count) :: rest =>
      (if !((cons.wildcard_counts.map Prod.fst).contains cat) || count == 0 then 0
       else min count (wildcardNamesOf cons filtered cat).length) +
      wildcardTotalAux cons filtered rest

/-- Total wildcard-offering count for the whole request. -/
def wildcardTotal (cons : TimetableConstraints) (filtered : List Course) : Nat :=
  wildcardTotalAux cons filtered cons.wildcard_counts

theorem gwc_mem (cons : TimetableConstraints) (filtered : List Course) :
    ∀ (entries : List (String × Nat)) (names : List String),
      names ∈ generate_wildcard_combos cons filtered entries →
      names.length = wildcardTotalAux cons filtered entries ∧
      ∀ n ∈ names, ∃ cat,
        (cons.wildcard_counts.map Prod.fst).contains cat = true ∧
        n ∈ wildcardNamesOf cons filtered cat := by
  intro entries
  induction entries with
  | nil =>
    intro names h
    simp only [generate_wildcard_combos, List.mem_singleton] at h
    subst h
    simp [wildcardTotalAux]
  | cons e rest ih =>
    obtain ⟨cat, count⟩ := e
    intro names h
    simp only [generate_wildcard_combos] at h
    split at h
    · rename_i hcond
      obtain ⟨hlen, hmem⟩ := ih names h
      refine ⟨?_, hmem⟩
      simp only [wildcardTotalAux, if_pos hcond]
      omega
    · rename_i hcond
      simp only [List.mem_flatMap, List.mem_map] at h
      obtain ⟨cc, hcc, ex, hex, rfl⟩ := h
      obtain ⟨hcclen, hccmem⟩ := combs_mem _ _ _ hcc
      obtain ⟨hexlen, hexmem⟩ := ih ex hex
      have hcond' : (!((cons.wildcard_counts.map Prod.fst).contains cat) ||
          (count == 0)) = false := by
        cases hb : (!((cons.wildcard_counts.map Prod.fst).contains cat) ||
            (count == 0)) with
        | false => rfl
        | true => exact absurd hb hcond
      have hck : (cons.wildcard_counts.map Prod.fst).contains cat = true := by
        rcases Bool.or_eq_false_iff.mp hcond' with ⟨h1, _⟩
        simpa using h1
      constructor
      · simp only [List.length_append, hcclen, hexlen, wildcardTotalAux,
          if_neg hcond]
      · intro n hn
        rcases List.mem_append.mp hn with h' | h'
        · exact ⟨cat, hck, hccmem n h'⟩
        · exact hexmem n h'

theorem dedupFirstAux_mem (l : List String) :
    ∀ (seen : List String) (x : String), x ∈ dedupFirstAux seen l → x ∈ l := by
  induction l with
  | nil =>
    intro seen x h
    simp [dedupFirstAux] at h
  | cons a t ih =>
    intro seen x h
    simp only [dedupFirstAux] at h
    split at h
    · exact List.mem_cons_of_mem _ (ih seen x h)
    · rcases List.mem_cons.mp h with rfl | h'
      · exact List.mem_cons_self _ _
      · exact List.mem_cons_of_mem _ (ih _ x h')

theorem wildcardNamesOf_exists (cons : TimetableConstraints)
    (filtered : List Course) (cat n : String)
    (h : n ∈ wildcardNamesOf cons filtered cat) :
    ∃ c ∈ wildcardPool cons filtered cat, c.short_title = n := by
  unfold wildcardNamesOf dedupFirst at h
  have h' := dedupFirstAux_mem _ _ _ h
  rw [List.mem_map] at h'
  obtain ⟨c, hc, he⟩ := h'
  exact ⟨c, hc, he⟩

theorem wildcardSectionsOf_isEmpty_false (cons : TimetableConstraints)
    (filtered : List Course) (n : String)
    (hcat : ∃ cat, (cons.wildcard_counts.map Prod.fst).contains cat = true ∧
      n ∈ wildcardNamesOf cons filtered cat) :
    (wildcardSectionsOf cons filtered n).isEmpty = false := by
  obtain ⟨cat, hc, hn⟩ := hcat
  unfold wildcardSectionsOf
  have hex : ∃ x ∈ (cons.wildcard_counts.map Prod.fst).reverse,
      (wildcardNamesOf cons filtered x).contains n = true :=
    ⟨cat, List.mem_reverse.mpr (List.elem_iff.mp hc), List.elem_iff.mpr hn⟩
  have hsome : ((cons.wildcard_counts.map Prod.fst).reverse.find?
      (fun cat => (wildcardNamesOf cons filtered cat).contains n)).isSome := by
    rw [List.find?_isSome]
    exact hex
  rcases Option.isSome_iff_exists.mp hsome with ⟨cat', hfind⟩
  rw [hfind]
  have hpred := List.find?_some hfind
  have hn' : n ∈ wildcardNamesOf cons filtered cat' := List.elem_iff.mp hpred
  obtain ⟨c, hcmem, hcshort⟩ := wildcardNamesOf_exists cons filtered cat' n hn'
  rw [List.isEmpty_eq_false_iff_exists_mem]
  exact ⟨c, List.mem_filter.mpr ⟨hcmem, by simp [hcshort]⟩⟩

theorem wildcardSectionsOf_mem (cons : TimetableConstraints)
    (filtered : List Course) (n : String) (c : Course)
    (h : c ∈ wildcardSectionsOf cons filtered n) :
    cons.required_courses.contains c.short_title = false := by
  unfold wildcardSectionsOf at h
  split at h
  · rw [List.mem_filter] at h
    have hp := h.1
    simp only [wildcardPool, List.mem_filter, Bool.and_eq_true,
      Bool.not_eq_true'] at hp
    exact hp.2.1
  · simp at h

theorem filterMap_if_length {α β : Type} (p : α → Bool) (g : α → β) :
    ∀ l : List α,
      (l.filterMap (fun a => if p a then some (g a) else none)).length =
        (l.filter p).length := by
  intro l
  induction l with
  | nil => rfl
  | cons a t ih =>
    by_cases h : p a <;>
      simp [List.filterMap_cons, List.filter_cons, h, ih]

theorem requiredOptions_length (cons : TimetableConstraints)
    (filtered : List Course) :
    (requiredOptions cons filtered).length =
      (cons.required_courses.filter
        (fun n => (filtered.map (·.short_title)).contains n)).length :=
  filterMap_if_length _ _ cons.required_courses

theorem requiredOptions_mem (cons : TimetableConstraints)
    (filtered : List Course) (opts : List Course)
    (h : opts ∈ requiredOptions cons filtered) :
    ∃ name ∈ cons.required_courses,
      opts = resolvePref (prefOf cons name)
        (filtered.filter (fun c => c.short_title == name)) := by
  simp only [requiredOptions, List.mem_filterMap] at h
  obtain ⟨name, hn, he⟩ := h
  split at he
  · simp only [Option.some.injEq] at he
    exact ⟨name, hn, he.symm⟩
  · simp at he

theorem resolvePref_subset (pref : SectionPref) (secs : List Course) :
    ∀ c ∈ resolvePref pref secs, c ∈ secs := by
  intro c h
  cases pref with
  | str s =>
    simp only [resolvePref] at h
    split at h
    · split at h
      · exact h
      · exact (List.mem_filter.mp h).1
    · exact h
  | list ss =>
    simp only [resolvePref] at h
    split at h
    · split at h
      · exact h
      · exact (List.mem_filter.mp h).1
    · exact h

theorem filterMap_sections_eq_map (cons : TimetableConstraints)
    (filtered : List Course) :
    ∀ names : List String,
      (∀ n ∈ names, (wildcardSectionsOf cons filtered n).isEmpty = false) →
      (names.filterMap (fun n =>
        let sections := wildcardSectionsOf cons filtered n
        if sections.isEmpty then none else some sections)) =
      names.map (wildcardSectionsOf cons filtered) := by
  intro names h
  induction names with
  | nil => rfl
  | cons a t ih =>
    have ha := h a (List.mem_cons_self _ _)
    have ht := ih (fun n hn => h n (List.mem_cons_of_mem _ hn))
    simp only [List.filterMap_cons, List.map_cons, ha, Bool.false_eq_true,
      if_false, ht]

/-- C3 (amended): every emitted selection splits as required picks followed
by wildcard picks: one offering per *resolvable* required course name (a
name of `required_courses` occurring in the filtered catalog — names with
no offerings are skipped and contribute nothing), each carrying a required
short-title, plus exactly `wildcardTotal` wildcard offerings — per
category the quota capped by the pool's distinct-course-name count — none
of which carries a required short-title. -/
theorem C3_amended_cardinality (courses : List Course)
    (cons : TimetableConstraints) (k : Nat) (l : List Course)
    (hl : l ∈ generate_timetables courses cons k) :
    ∃ req wc, l = req ++ wc ∧
      req.length = (cons.required_courses.filter
        (fun n => ((filter_courses courses cons).map (·.short_title)).contains n)).length ∧
      (∀ c ∈ req, c.short_title ∈ cons.required_courses) ∧
      wc.length = wildcardTotal cons (filter_courses courses cons) ∧
      (∀ c ∈ wc, c.short_title ∉ cons.required_courses) := by
  simp only [generate_timetables] at hl
  split at hl
  · simp at hl
  · rcases emitLoop_mem _ _ _ _ _ hl with h | h
    · simp at h
    · clear hl
      simp only [candidateCombos, List.mem_flatMap] at h
      obtain ⟨req, hreq, h⟩ := h
      obtain ⟨hreqlen, hreqmem⟩ := listProduct_mem _ _ hreq
      have hreqlen' : req.length = (cons.required_courses.filter
          (fun n => ((filter_courses courses cons).map (·.short_title)).contains n)).length := by
        rw [hreqlen, requiredOptions_length]
      have hreqall : ∀ c ∈ req, c.short_title ∈ cons.required_courses := by
        intro c hc
        obtain ⟨opts, ho, hco⟩ := hreqmem c hc
        obtain ⟨name, hname, rfl⟩ := requiredOptions_mem _ _ _ ho
        have hgrp := resolvePref_subset _ _ c hco
        have hshort : c.short_title = name := by
          have := (List.mem_filter.mp hgrp).2
          simpa using this
        exact hshort ▸ hname
      split at h
      · simp at h
      · simp only [List.mem_flatMap] at h
        obtain ⟨wnames, hwn, h⟩ := h
        obtain ⟨hwlen, hwmem⟩ := gwc_mem _ _ _ _ hwn
        have hne : ∀ n ∈ wnames,
            (wildcardSectionsOf cons (filter_courses courses cons) n).isEmpty = false :=
          fun n hn => wildcardSectionsOf_isEmpty_false _ _ _ (hwmem n hn)
        rw [filterMap_sections_eq_map cons (filter_courses courses cons) wnames hne] at h
        split at h
        · rename_i hoe
          have hwe : wnames = [] := by
            rw [List.isEmpty_iff] at hoe
            exact List.map_eq_nil_iff.mp hoe
          simp only [List.mem_singleton] at h
          subst h
          refine ⟨l, [], by simp, hreqlen', hreqall, ?_, by simp⟩
          rw [List.length_nil, wildcardTotal, ← hwlen, hwe, List.length_nil]
        · simp only [List.mem_filterMap] at h
          obtain ⟨wc, hwc, heq⟩ := h
          split at heq
          · simp at heq
          · simp only [Option.some.injEq] at heq
            obtain ⟨hwclen, hwcmem⟩ := listProduct_mem _ _ hwc
            refine ⟨req, wc, heq.symm, hreqlen', hreqall, ?_, ?_⟩
            · rw [hwclen, List.length_map, hwlen, wildcardTotal]
            · intro c hc hmem
              obtain ⟨opts, ho, hco⟩ := hwcmem c hc
              rw [List.mem_map] at ho
              obtain ⟨n, _, rfl⟩ := ho
              have hfalse := wildcardSectionsOf_mem _ _ _ _ hco
              have htrue : cons.required_courses.contains c.short_title = true :=
                List.elem_iff.mpr hmem
              rw [htrue] at hfalse
              exact Bool.noConfusion hfalse

/-- C8: for a required course name that resolves in the filtered catalog,
the option set entered into `required_options` is `resolvePref` of its
group — when the preference names specific sections, the matching subset
if non-empty and the whole group as a fallback otherwise — the entry is
always present (the request is never aborted), and a non-empty group never
yields zero options. -/
theorem C8_preference_fallback (cons : TimetableConstraints)
    (filtered : List Course) (name : String)
    (hres : (filtered.map (·.short_title)).contains name = true)
    (hreq : name ∈ cons.required_courses) :
    (resolvePref (prefOf cons name)
        (filtered.filter (fun c => c.short_title == name)) ∈
      requiredOptions cons filtered) ∧
    (((prefOf cons name).truthy && !(prefOf cons name == .str "any")) = true →
      (matchingSections (prefOf cons name)
          (filtered.filter (fun c => c.short_title == name)) ≠ [] →
        resolvePref (prefOf cons name)
            (filtered.filter (fun c => c.short_title == name)) =
          matchingSections (prefOf cons name)
            (filtered.filter (fun c => c.short_title == name))) ∧
      (matchingSections (prefOf cons name)
          (filtered.filter (fun c => c.short_title == name)) = [] →
        resolvePref (prefOf cons name)
            (filtered.filter (fun c => c.short_title == name)) =
          filtered.filter (fun c => c.short_title == name))) ∧
    (filtered.filter (fun c => c.short_title == name) ≠ [] →
      resolvePref (prefOf cons name)
        (filtered.filter (fun c => c.short_title == name)) ≠ []) := by
  refine ⟨?_, fun hspec => ⟨fun hne => ?_, fun hemp => ?_⟩, fun hgrp => ?_⟩
  · rw [requiredOptions, List.mem_filterMap]
    exact ⟨name, hreq, by rw [if_pos hres]⟩
  · simp only [resolvePref, if_pos hspec]
    rw [if_neg]
    simp [List.isEmpty_iff, hne]
  · simp only [resolvePref, if_pos hspec]
    rw [if_pos]
    simp [List.isEmpty_iff, hemp]
  · simp only [resolvePref]
    split
    · split
      · exact hgrp
      · rename_i hie
        simp only [List.isEmpty_iff] at hie
        intro hcontra
        exact hie hcontra
    · exact hgrp

/-! ## Concrete offerings and constraints for witnesses and counterexamples -/

/-- A plain Monday-morning offering of course "A". -/
def cA : Course :=
  { code := "CS101", title := "Algorithms", short_title := "A",
    section_ := "BCS-8A", instructor := "X", instructor_short := "X",
    credit_hours := 3, category := "Core", day1 := some "Mon",
    slot1 := some "08:30", venue1 := some "R1" }

/-- Constraints requiring only course "A". -/
def consA : TimetableConstraints := { required_courses := ["A"] }

/-- Constraints requiring "A" and a course "B" absent from the catalog. -/
def consAB : TimetableConstraints := { required_courses := ["A", "B"] }

/-- A required offering from an earlier semester (repeater scenario). -/
def cOld : Course := { cA with section_ := "BCS-6A" }

/-- A non-required offering outside the resolved batch scope. -/
def cZ : Course := { cA with short_title := "Z", section_ := "BCS-6B" }

/-- Constraints with one excluded instructor and one excluded slot that do
not fire on `cA`. -/
def consExc : TimetableConstraints :=
  { required_courses := ["A"], excluded_instructors := ["Y"],
    excluded_time_slots := ["19:00"] }

/-- Constraints whose preference for "A" names a section label that does
not exist in the catalog (exercises the fallback). -/
def consPrefMiss : TimetableConstraints :=
  { required_courses := ["A"],
    section_preferences := [("A", SectionPref.str "BCS-8Z")] }

/-! ## Witnesses and counterexamples -/

/-- C1 witness: the selection emitted for the one-course catalog is
conflict-free. -/
theorem C1_witness : has_conflicts [cA] = false :=
  C1_no_conflicts [cA] consA 10 [cA] (by decide)

/-- C2 counterexample: with `max_results = 0` the generator still returns
one selection — the cap check runs only after an emission — refuting both
`len(generate(..., maxResults=0)) = 0` and `len ≤ 0`. -/
theorem C2_counterexample :
    generate_timetables [cA] consA 0 = [[cA]] ∧
    ¬((generate_timetables [cA] consA 0).length ≤ 0) := by decide

/-- C2 witness: the amended cap bound at cap 10 on a concrete catalog. -/
theorem C2_witness :
    (generate_timetables [cA] consA 10).length ≤ max 10 1 ∧
    (generate_timetables [cA] consA 10).length ≤ 10 :=
  ⟨(C2_amended_cap [cA] consA 10).1, (C2_amended_cap [cA] consA 10).2 (by decide)⟩

/-- C3 counterexample: requiring "A" and "B" against a catalog that only
offers "A" still emits the selection `[cA]`, which does not contain
`len(required_courses) = 2` required offerings (plus 0 wildcards) — the
unresolvable name "B" is silently skipped. -/
theorem C3_counterexample :
    generate_timetables [cA] consAB 10 = [[cA]] ∧
    ¬(∀ l ∈ generate_timetables [cA] consAB 10,
        l.length = consAB.required_courses.length +
          (consAB.wildcard_counts.map Prod.snd).sum) := by decide

/-- C3 witness: the amended cardinality statement at a concrete input. -/
theorem C3_witness :
    ∃ req wc, [cA] = req ++ wc ∧
      req.length = (consA.required_courses.filter
        (fun n => ((filter_courses [cA] consA).map (·.short_title)).contains n)).length ∧
      (∀ c ∈ req, c.short_title ∈ consA.required_courses) ∧
      wc.length = wildcardTotal consA (filter_courses [cA] consA) ∧
      (∀ c ∈ wc, c.short_title ∉ consA.required_courses) :=
  C3_amended_cardinality [cA] consA 10 [cA] (by decide)

/-- C4 witness: the emitted selection is the first candidate carrying its
slot signature. -/
theorem C4_witness :
    (candidateCombos consA (filter_courses [cA] consA)
      (requiredOptions consA (filter_courses [cA] consA))
      (generate_wildcard_combos consA (filter_courses [cA] consA)
        consA.wildcard_counts)).find?
      (fun cand => get_slot_pattern cand == get_slot_pattern [cA]) = some [cA] :=
  (C4_dedup_and_first [cA] consA 10).2 [cA] (by decide)

/-- C5 witness: the required repeater offering from semester 6 survives the
batch-2022 filter, while the non-required semester-6 offering is dropped. -/
theorem C5_witness :
    cOld ∈ filter_courses [cOld, cZ] consA ∧
    cZ ∉ filter_courses [cOld, cZ] consA :=
  ⟨(C5_required_exemption [cOld, cZ] consA cOld).1 (by decide) (by decide)
      (by decide) (by decide) (by decide),
   (C5_required_exemption [cOld, cZ] consA cZ).2 (by decide) (by decide)⟩

/-- C6 witness: an offering passing the stricter exclusions still passes
after erasing an excluded instructor or an excluded slot. -/
theorem C6_witness :
    cA ∈ filter_courses [cA]
      { consExc with excluded_instructors := consExc.excluded_instructors.erase "Y" } ∧
    cA ∈ filter_courses [cA]
      { consExc with excluded_time_slots := consExc.excluded_time_slots.erase "19:00" } :=
  ⟨(C6_monotonic_relaxation [cA] consExc "Y" cA).1 (by decide),
   (C6_monotonic_relaxation [cA] consExc "19:00" cA).2 (by decide)⟩

/-- C8 witness: a preference naming a non-existent section still produces
an options entry, and that entry falls back to the full group. -/
theorem C8_witness :
    (resolvePref (prefOf consPrefMiss "A")
        ((filter_courses [cA] consPrefMiss).filter (fun c => c.short_title == "A")) ∈
      requiredOptions consPrefMiss (filter_courses [cA] consPrefMiss)) ∧
    resolvePref (prefOf consPrefMiss "A")
        ((filter_courses [cA] consPrefMiss).filter (fun c => c.short_title == "A")) =
      (filter_courses [cA] consPrefMiss).filter (fun c => c.short_title == "A") :=
  ⟨(C8_preference_fallback consPrefMiss (filter_courses [cA] consPrefMiss) "A"
      (by decide) (by decide)).1,
   ((C8_preference_fallback consPrefMiss (filter_courses [cA] consPrefMiss) "A"
      (by decide) (by decide)).2.1 (by decide)).2 (by decide)⟩

/-- A lab offering whose stored slot "09:00" is not on the grid. -/
def cLabOffGrid : Course :=
  { cA with
    title := "AI Lab", short_title := "L", slot1 := some "09:00",
    duration_minutes := 170 }

/-- C9 witness: the off-grid slot "09:00" has no next slot, and the lab
meeting there emits only its base triple. -/
theorem C9_witness :
    get_next_slot "09:00" = none ∧
    cLabOffGrid.get_time_slots = [("Mon", "09:00", orTBD cLabOffGrid.venue1)] :=
  ⟨(C9_next_slot_total_off_grid "09:00" (by decide) (by decide)).1,
   (C9_next_slot_total_off_grid "09:00" (by decide) (by decide)).2 cLabOffGrid
     "Mon" (by decide) rfl (by decide) rfl (by decide)⟩

/-- An offering with no meeting data at all. -/
def cNoMeeting : Course :=
  { code := "CS0", title := "Seminar", short_title := "S",
    section_ := "BCS-8A", instructor := "X", instructor_short := "X",
    credit_hours := 1, category := "Core" }

/-- C10 witness: the meeting-less offering occupies no slots and never
conflicts, and dropping it from a selection keeps the signature. -/
theorem C10_witness :
    cNoMeeting.get_time_slots = [] ∧
    cNoMeeting.conflicts_with cA = false ∧
    cA.conflicts_with cNoMeeting = false ∧
    get_slot_pattern [cA, cNoMeeting] = get_slot_pattern [cA] :=
  ⟨(C10_empty_meeting_offerings cNoMeeting (by decide) (by decide)).1,
   ((C10_empty_meeting_offerings cNoMeeting (by decide) (by decide)).2.1 cA).2,
   ((C10_empty_meeting_offerings cNoMeeting (by decide) (by decide)).2.1 cA).1,
   (C10_empty_meeting_offerings cNoMeeting (by decide) (by decide)).2.2.1 [cA] []⟩

end Timetable
